import Mathlib

/-!
Verification of the submarine-kata navigation and scan-to-map aggregation
subsystem (`src/submarine.ts`, plus the state-machine variant in the
advanced-patterns file), via a shallow embedding in Lean.

Conventions of the embedding:
* JS numbers are embedded as `Int` (all values in play are integers and far
  from 2^53, so JS number arithmetic is exact integer arithmetic).
* The JS `Map<string, string>` of map points is embedded as an association
  list `List (String × Char)` with JS `Map.set` semantics (`mapSet`):
  replace in place when the key exists, append otherwise.
* Template-literal formatting `(${x},${y})` is embedded as `fmtKey`, built
  on a fuel-based decimal digit emitter that mirrors JS decimal number
  formatting.
* The regex `/\((-?\d+),(-?\d+)\)/` combined with `parseInt` on its two
  captures is embedded as `parseKey`.  The regex is unanchored in JS, but
  every key the aggregator ever stores is produced by `fmtKey`, on which an
  exact-shape parse and the unanchored search coincide (leftmost match at
  index 0 covering the whole string).
* Thrown JS exceptions are embedded as `Except String`.
-/

namespace Kata

/-- Character for a single decimal digit `d < 10` (JS number formatting). -/
def digitCh (d : Nat) : Char := Char.ofNat (48 + d)

/-- Numeric value of a decimal digit character (as used by `parseInt`). -/
def digitVal (c : Char) : Nat := c.toNat - 48

/-- Value of a big-endian decimal digit string, `parseInt`-style fold. -/
def valChars (l : List Char) : Nat :=
  l.foldl (fun a c => a * 10 + digitVal c) 0

/-- Fuel-based decimal digit emitter: for `n < fuel`, `natCharsAux fuel n`
is the standard (no leading zero) decimal representation of `n`, exactly
the digit string JS number-to-string conversion produces for a
non-negative integer. -/
def natCharsAux : Nat → Nat → List Char
  | 0, _ => []
  | fuel + 1, n =>
    if n < 10 then [digitCh n]
    else natCharsAux fuel (n / 10) ++ [digitCh (n % 10)]

/-- Decimal representation of a natural number, as JS formats it. -/
def natChars (n : Nat) : List Char := natCharsAux (n + 1) n

/-- Decimal representation of an integer, as JS formats it (leading `-`
for negative values). -/
def intChars (i : Int) : List Char :=
  if i < 0 then '-' :: natChars (-i).toNat else natChars i.toNat

theorem digitCh_isDigit : ∀ d < 10, (digitCh d).isDigit = true := by decide

theorem digitVal_digitCh : ∀ d < 10, digitVal (digitCh d) = d := by decide

theorem valChars_append_one (a : List Char) (c : Char) :
    valChars (a ++ [c]) = valChars a * 10 + digitVal c := by
  simp [valChars, List.foldl_append]

theorem natCharsAux_spec : ∀ fuel n, n < fuel →
    natCharsAux fuel n ≠ [] ∧ (∀ c ∈ natCharsAux fuel n, c.isDigit = true) ∧
    valChars (natCharsAux fuel n) = n := by
  intro fuel
  induction fuel with
  | zero => intro n h; omega
  | succ f ih =>
    intro n h
    by_cases h10 : n < 10
    · refine ⟨by simp [natCharsAux, h10], ?_, ?_⟩
      · intro c hc
        simp [natCharsAux, h10] at hc
        subst hc
        exact digitCh_isDigit n h10
      · simp [natCharsAux, h10, valChars, digitVal_digitCh n h10]
    · have hlt : n / 10 < f := by omega
      obtain ⟨hne, hdig, hval⟩ := ih (n / 10) hlt
      refine ⟨by simp [natCharsAux, h10], ?_, ?_⟩
      · intro c hc
        simp only [natCharsAux, h10, if_false, List.mem_append,
          List.mem_singleton] at hc
        rcases hc with hc | hc
        · exact hdig c hc
        · subst hc; exact digitCh_isDigit (n % 10) (by omega)
      · simp only [natCharsAux, h10, if_false]
        rw [valChars_append_one, hval, digitVal_digitCh (n % 10) (by omega)]
        omega

theorem natChars_ne_nil (n : Nat) : natChars n ≠ [] :=
  (natCharsAux_spec (n + 1) n (by omega)).1

theorem natChars_all_digits (n : Nat) : ∀ c ∈ natChars n, c.isDigit = true :=
  (natCharsAux_spec (n + 1) n (by omega)).2.1

theorem valChars_natChars (n : Nat) : valChars (natChars n) = n :=
  (natCharsAux_spec (n + 1) n (by omega)).2.2

/-- Character list of the coordinate key `(${x},${y})` built by
`translateScanToMap` and `checkScanner`. -/
def fmtKeyChars (x y : Int) : List Char :=
  '(' :: (intChars x ++ ',' :: (intChars y ++ [')']))

/-- The coordinate key string `(${x},${y})`. -/
def fmtKey (x y : Int) : String := ⟨fmtKeyChars x y⟩

/-- Leading decimal-digit run of a character list together with its value,
modelling one `-?\d+` capture handed to `parseInt` (the capture is a pure
digit run, on which `parseInt` is exact). `none` when there is no digit. -/
def parseDigitsNat (l : List Char) : Option (Nat × List Char) :=
  let ds := l.takeWhile Char.isDigit
  if ds = [] then none else some (valChars ds, l.dropWhile Char.isDigit)

/-- Optionally `-`-signed capture `-?\d+` with its `parseInt` value. -/
def parseIntPart (l : List Char) : Option (Int × List Char) :=
  match l with
  | [] => none
  | c :: t =>
    if c = '-' then (parseDigitsNat t).map (fun p => (-(p.1 : Int), p.2))
    else (parseDigitsNat (c :: t)).map (fun p => ((p.1 : Int), p.2))

/-- Embedding of matching a key against `/\((-?\d+),(-?\d+)\)/` and running
`parseInt` on the two captures.  Modelled as an exact-shape parse, which
coincides with the unanchored JS regex search on every key the aggregator
writes (all of which are `fmtKey` images). -/
def parseKeyChars (l : List Char) : Option (Int × Int) :=
  match l with
  | [] => none
  | c :: r1 =>
    if c = '(' then
      match parseIntPart r1 with
      | none => none
      | some (x, r2) =>
        match r2 with
        | [] => none
        | c2 :: r3 =>
          if c2 = ',' then
            match parseIntPart r3 with
            | none => none
            | some (y, r4) => if r4 = [')'] then some (x, y) else none
          else none
    else none

def parseKey (s : String) : Option (Int × Int) := parseKeyChars s.data

theorem takeWhile_all_append {p : Char → Bool} (a : List Char) (b : Char)
    (r : List Char) (ha : ∀ c ∈ a, p c = true) (hb : p b = false) :
    (a ++ b :: r).takeWhile p = a ∧ (a ++ b :: r).dropWhile p = b :: r := by
  induction a with
  | nil => simp [List.takeWhile, List.dropWhile, hb]
  | cons c t ih =>
    have hc : p c = true := ha c (by simp)
    have ht : ∀ c' ∈ t, p c' = true := fun c' hc' => ha c' (by simp [hc'])
    obtain ⟨h1, h2⟩ := ih ht
    simp [List.takeWhile, List.dropWhile, hc, h1, h2]

theorem parseDigitsNat_natChars (n : Nat) (b : Char) (r : List Char)
    (hb : b.isDigit = false) :
    parseDigitsNat (natChars n ++ b :: r) = some (n, b :: r) := by
  obtain ⟨h1, h2⟩ :=
    takeWhile_all_append (natChars n) b r (natChars_all_digits n) hb
  simp [parseDigitsNat, h1, h2, natChars_ne_nil n, valChars_natChars n]

theorem minusCh_not_digit : ('-').isDigit = false := by decide

theorem parseIntPart_intChars (i : Int) (b : Char) (r : List Char)
    (hb : b.isDigit = false) :
    parseIntPart (intChars i ++ b :: r) = some (i, b :: r) := by
  by_cases hneg : i < 0
  · have : intChars i = '-' :: natChars (-i).toNat := by
      simp [intChars, hneg]
    rw [this]
    simp only [List.cons_append, parseIntPart, if_pos rfl,
      parseDigitsNat_natChars _ b r hb, Option.map_some]
    have : ((-i).toNat : Int) = -i := Int.toNat_of_nonneg (by omega)
    simp [this]
  · have hic : intChars i = natChars i.toNat := by
      simp [intChars, hneg]
    rw [hic]
    obtain ⟨c, t, hct⟩ := List.exists_cons_of_ne_nil (natChars_ne_nil i.toNat)
    have hcdig : c.isDigit = true := by
      have := natChars_all_digits i.toNat
      rw [hct] at this
      exact this c (by simp)
    have hcne : ¬ c = '-' := by
      intro h; rw [h] at hcdig; exact absurd hcdig (by decide)
    rw [hct]
    simp only [List.cons_append, parseIntPart, if_neg hcne]
    rw [← List.cons_append, ← hct, parseDigitsNat_natChars _ b r hb]
    have : (i.toNat : Int) = i := Int.toNat_of_nonneg (by omega)
    simp [this]

theorem parseKey_fmtKey (x y : Int) : parseKey (fmtKey x y) = some (x, y) := by
  show parseKeyChars (fmtKeyChars x y) = some (x, y)
  unfold fmtKeyChars
  simp only [parseKeyChars, if_pos rfl]
  rw [parseIntPart_intChars x ',' _ (by decide)]
  simp only [if_pos rfl]
  rw [parseIntPart_intChars y ')' [] (by decide)]
  simp

theorem fmtKey_inj {x y x' y' : Int} :
    fmtKey x y = fmtKey x' y' ↔ x = x' ∧ y = y' := by
  constructor
  · intro h
    have h2 := parseKey_fmtKey x y
    rw [h, parseKey_fmtKey x' y'] at h2
    simpa using h2.symm
  · rintro ⟨rfl, rfl⟩; rfl

/-- JS `Map.set` on an association list: replace in place when the key is
present, append otherwise (JS `Map` preserves insertion order). -/
def mapSet : List (String × Char) → String → Char → List (String × Char)
  | [], k, v => [(k, v)]
  | (k', v') :: t, k, v =>
    if k' = k then (k, v) :: t else (k', v') :: mapSet t k v

/-- JS `Map.get` on the association-list embedding. -/
def mapGet : List (String × Char) → String → Option Char
  | [], _ => none
  | (k', v') :: t, k => if k' = k then some v' else mapGet t k

theorem mapGet_mapSet (m : List (String × Char)) (k : String) (v : Char)
    (k' : String) :
    mapGet (mapSet m k v) k' = if k = k' then some v else mapGet m k' := by
  induction m with
  | nil =>
    by_cases h : k = k' <;> simp [mapSet, mapGet, h]
  | cons e t ih =>
    obtain ⟨ke, ve⟩ := e
    by_cases he : ke = k
    · subst he
      by_cases h : ke = k' <;> simp [mapSet, mapGet, h]
    · by_cases h : ke = k'
      · subst h
        have hk : ¬ k = ke := fun h' => he h'.symm
        simp [mapSet, mapGet, he, ih, hk]
      · simp [mapSet, mapGet, he, h, ih]

/-- `Position` as stored in the visited log and in scan data. -/
structure Position where
  horizontal : Int
  depth : Int
deriving DecidableEq

/-- `PositionWithAim` of `SubmarinePart2`. -/
structure PositionWithAim where
  horizontal : Int
  depth : Int
  aim : Int
deriving DecidableEq

/-- `ScanData`: the position a sample was taken at plus its characters. -/
structure ScanData where
  position : Position
  scanResult : List Char
deriving DecidableEq

/-- The nine fixed offsets of `translateScanToMap`, row-major. -/
def offsets : List (Int × Int) :=
  [(-1, -1), (0, -1), (1, -1),
   (-1,  0), (0,  0), (1,  0),
   (-1,  1), (0,  1), (1,  1)]

/-- Loop of `scanResult.forEach((char, index) => ...)` in
`translateScanToMap`: each character is written at
`(position.horizontal + xOffset, position.depth + yOffset)`.  Indexing
`offsets[index]` past the end yields `undefined` in JS and the
destructuring `const [xOffset, yOffset] = ...` then throws, embedded as
the `Except.error` branch. -/
def translateGo (pos : Position) :
    List Char → Nat → List (String × Char) →
    Except String (List (String × Char))
  | [], _, m => .ok m
  | c :: cs, i, m =>
    match offsets[i]? with
    | none => .error "TypeError: offsets[index] is not iterable"
    | some (dx, dy) =>
        translateGo pos cs (i + 1)
          (mapSet m (fmtKey (pos.horizontal + dx) (pos.depth + dy)) c)

/-- `SubmarinePart3.translateScanToMap`, acting on an explicit prior map. -/
def translateScanToMap (m : List (String × Char)) (sd : ScanData) :
    Except String (List (String × Char)) :=
  translateGo sd.position sd.scanResult 0 m

theorem translateGo_cons (pos : Position) (c : Char) (cs : List Char)
    (i : Nat) (m : List (String × Char)) (dx dy : Int)
    (hoff : offsets[i]? = some (dx, dy)) :
    translateGo pos (c :: cs) i m =
      translateGo pos cs (i + 1)
        (mapSet m (fmtKey (pos.horizontal + dx) (pos.depth + dy)) c) := by
  simp [translateGo, hoff]

set_option maxHeartbeats 3200000 in
/-- C1: when a 9-character scan sample is ingested at position `(h, d)`,
`translateScanToMap` writes each character into the sparse map at the
absolute coordinate given by the row-major offset protocol — indices
0,1,2 at `(h-1,d-1),(h,d-1),(h+1,d-1)`, indices 3,4,5 at
`(h-1,d),(h,d),(h+1,d)`, indices 6,7,8 at `(h-1,d+1),(h,d+1),(h+1,d+1)`
— and each write overwrites any existing character at that coordinate
(the prior map `m` is arbitrary, so any earlier binding of the same
coordinate is replaced by the sample's character). -/
theorem c1_scan_offset_protocol (m : List (String × Char)) (h d : Int)
    (c0 c1 c2 c3 c4 c5 c6 c7 c8 : Char) :
    ∃ m', translateScanToMap m ⟨⟨h, d⟩, [c0, c1, c2, c3, c4, c5, c6, c7, c8]⟩
        = .ok m' ∧
      mapGet m' (fmtKey (h - 1) (d - 1)) = some c0 ∧
      mapGet m' (fmtKey h (d - 1)) = some c1 ∧
      mapGet m' (fmtKey (h + 1) (d - 1)) = some c2 ∧
      mapGet m' (fmtKey (h - 1) d) = some c3 ∧
      mapGet m' (fmtKey h d) = some c4 ∧
      mapGet m' (fmtKey (h + 1) d) = some c5 ∧
      mapGet m' (fmtKey (h - 1) (d + 1)) = some c6 ∧
      mapGet m' (fmtKey h (d + 1)) = some c7 ∧
      mapGet m' (fmtKey (h + 1) (d + 1)) = some c8 := by
  have hrun : translateScanToMap m
      ⟨⟨h, d⟩, [c0, c1, c2, c3, c4, c5, c6, c7, c8]⟩ =
      .ok (mapSet (mapSet (mapSet (mapSet (mapSet (mapSet (mapSet (mapSet
        (mapSet m (fmtKey (h + -1) (d + -1)) c0)
        (fmtKey (h + 0) (d + -1)) c1)
        (fmtKey (h + 1) (d + -1)) c2)
        (fmtKey (h + -1) (d + 0)) c3)
        (fmtKey (h + 0) (d + 0)) c4)
        (fmtKey (h + 1) (d + 0)) c5)
        (fmtKey (h + -1) (d + 1)) c6)
        (fmtKey (h + 0) (d + 1)) c7)
        (fmtKey (h + 1) (d + 1)) c8) := by
    show translateGo _ _ 0 m = _
    rw [translateGo_cons _ _ _ _ _ _ _ (by rfl),
        translateGo_cons _ _ _ _ _ _ _ (by rfl),
        translateGo_cons _ _ _ _ _ _ _ (by rfl),
        translateGo_cons _ _ _ _ _ _ _ (by rfl),
        translateGo_cons _ _ _ _ _ _ _ (by rfl),
        translateGo_cons _ _ _ _ _ _ _ (by rfl),
        translateGo_cons _ _ _ _ _ _ _ (by rfl),
        translateGo_cons _ _ _ _ _ _ _ (by rfl),
        translateGo_cons _ _ _ _ _ _ _ (by rfl)]
    rfl
  refine ⟨_, hrun, ?_, ?_, ?_, ?_, ?_, ?_, ?_, ?_, ?_⟩ <;>
    (simp only [mapGet_mapSet, fmtKey_inj, true_and, and_true]
     split_ifs <;> first | rfl | omega)

/-- ASCII whitespace recognized by JS `trim` and `parseInt` (the JS
definitions also admit some exotic Unicode space code points, which
never occur in command scripts; the embedding models the ASCII set). -/
def isJsWs (c : Char) : Bool :=
  c = ' ' || c.toNat = 9 || c.toNat = 10 || c.toNat = 11 ||
    c.toNat = 12 || c.toNat = 13

/-- `String.prototype.trim`. -/
def jsTrim (l : List Char) : List Char :=
  ((l.dropWhile isJsWs).reverse.dropWhile isJsWs).reverse

/-- `String.prototype.split(' ')`: splits on every single space character,
keeping empty segments; the empty string yields `[""]`. -/
def splitSp : List Char → List (List Char)
  | [] => [[]]
  | c :: r =>
    if c = ' ' then [] :: splitSp r
    else
      match splitSp r with
      | [] => [[c]]
      | a :: t => (c :: a) :: t

/-- Longest decimal digit prefix together with its value; `none` when the
input does not start with a digit. -/
def digitsPrefixNat (l : List Char) : Option Nat :=
  let ds := l.takeWhile Char.isDigit
  if ds = [] then none else some (valChars ds)

/-- JS `parseInt(str, 10)`: skip leading whitespace, optional `-`/`+`
sign, then the longest digit prefix (trailing garbage ignored); `NaN`
(here `none`) when no digit follows the sign. -/
def jsParseInt10 (l : List Char) : Option Int :=
  match l.dropWhile isJsWs with
  | [] => none
  | c :: t =>
    if c = '-' then (digitsPrefixNat t).map (fun n => -(n : Int))
    else if c = '+' then (digitsPrefixNat t).map (fun n => (n : Int))
    else (digitsPrefixNat (c :: t)).map (fun n => (n : Int))

inductive Direction
  | forward
  | down
  | up
deriving DecidableEq

structure Command where
  direction : Direction
  value : Int
deriving DecidableEq

/-- `parseCommand`: trim, split on single spaces, demand exactly two
tokens, `parseInt` the value token, then check the direction token
against the three recognized literals; each failure throws (embedded as
`Except.error` carrying the message text). -/
def parseCommand (s : String) : Except String Command :=
  match splitSp (jsTrim s.data) with
  | [dirT, valT] =>
    match jsParseInt10 valT with
    | none =>
        .error ("Invalid value: \"" ++ String.mk valT ++
          "\". Expected a number")
    | some v =>
        if dirT = "forward".data then .ok ⟨.forward, v⟩
        else if dirT = "down".data then .ok ⟨.down, v⟩
        else if dirT = "up".data then .ok ⟨.up, v⟩
        else
          .error ("Invalid direction: \"" ++ String.mk dirT ++
            "\". Expected forward, down, or up")
  | _ =>
      .error ("Invalid command format: \"" ++ s ++
        "\". Expected \"direction value\"")

/-- `SubmarinePart1.executeCommand`'s state transition on a parsed
command. -/
def part1Step (p : Position) (c : Command) : Position :=
  match c.direction with
  | .forward => { p with horizontal := p.horizontal + c.value }
  | .down => { p with depth := p.depth + c.value }
  | .up => { p with depth := p.depth - c.value }

/-- `SubmarinePart1.executeCommand` on a raw command string. -/
def part1Exec (p : Position) (s : String) : Except String Position :=
  (parseCommand s).map (part1Step p)

/-- A full `SubmarinePart1` session from the all-zero initial state. -/
def part1Run (cmds : List String) : Except String Position :=
  cmds.foldlM part1Exec ⟨0, 0⟩

/-- `SubmarinePart2.executeCommand`'s state transition on a parsed
command (also the transition of `CruisingState.execute` in the
state-machine variant, which duplicates it verbatim). -/
def part2Step (p : PositionWithAim) (c : Command) : PositionWithAim :=
  match c.direction with
  | .forward =>
      { p with horizontal := p.horizontal + c.value,
               depth := p.depth + p.aim * c.value }
  | .down => { p with aim := p.aim + c.value }
  | .up => { p with aim := p.aim - c.value }

/-- `SubmarinePart2.executeCommand` on a raw command string. -/
def part2Exec (p : PositionWithAim) (s : String) :
    Except String PositionWithAim :=
  (parseCommand s).map (part2Step p)

/-- A full `SubmarinePart2` session from the all-zero initial state. -/
def part2Run (cmds : List String) : Except String PositionWithAim :=
  cmds.foldlM part2Exec ⟨0, 0, 0⟩

/-- The demo command sequence of the spec's determinism properties. -/
def demoCommands : List String :=
  ["forward 5", "down 5", "forward 8", "up 3", "down 8", "forward 2"]

/-- C8: applying the demo command sequence from the all-zero initial
state yields `(horizontal, depth) = (15, 10)` with product `150` under
the simple (Part 1) rule and `(15, 60)` with `aim = 10` and product
`900` under the aimed (Part 2) rule; determinism across re-runs holds
because the embedded transition is a pure function of the state and the
command list. -/
theorem c8_demo_run_results :
    part1Run demoCommands = .ok ⟨15, 10⟩ ∧
    (part1Run demoCommands).map (fun p => p.horizontal * p.depth) = .ok 150 ∧
    part2Run demoCommands = .ok ⟨15, 60, 10⟩ ∧
    (part2Run demoCommands).map (fun p => p.horizontal * p.depth) = .ok 900 :=
  ⟨rfl, rfl, rfl, rfl⟩

/-- C7 counterexample: the value token `5x` is not a valid base-10
integer (it contains a non-digit), yet `parseCommand "forward 5x"`
succeeds with value 5 because JS `parseInt` ignores trailing garbage —
refuting the claim that parsing fails exactly when the value token is
not a valid base-10 integer. -/
theorem c7_counterexample_trailing_garbage :
    parseCommand "forward 5x" = .ok ⟨.forward, 5⟩ ∧
    "5x".data.all Char.isDigit = false :=
  ⟨rfl, rfl⟩

/-- C7 (amended): `parseCommand` fails exactly when the trimmed input
does not split into exactly two space-separated tokens, or the value
token has no parsable integer prefix under JS `parseInt` semantics
(optional sign followed by at least one digit; trailing non-digits are
ignored rather than rejected), or the direction token is not one of
`forward`, `down`, `up`.  `parse "forward 5"` yields `{forward, 5}`,
negative values are accepted (`parse "down -3"`), and `parse "forward"`
and `parse "invalid 5"` both fail. -/
theorem c7_amended_failure_condition (s : String) :
    ((∃ e, parseCommand s = .error e) ↔
      (splitSp (jsTrim s.data)).length ≠ 2 ∨
      (∃ dirT valT, splitSp (jsTrim s.data) = [dirT, valT] ∧
        (jsParseInt10 valT = none ∨
         (dirT ≠ "forward".data ∧ dirT ≠ "down".data ∧
          dirT ≠ "up".data)))) ∧
    parseCommand "forward 5" = .ok ⟨.forward, 5⟩ ∧
    parseCommand "down -3" = .ok ⟨.down, -3⟩ ∧
    (∃ e, parseCommand "forward" = .error e) ∧
    (∃ e, parseCommand "invalid 5" = .error e) ∧
    parseCommand "forward 5x" = .ok ⟨.forward, 5⟩ := by
  refine ⟨?_, rfl, rfl, ⟨_, rfl⟩, ⟨_, rfl⟩, rfl⟩
  rcases hsp : splitSp (jsTrim s.data) with _ | ⟨dirT, _ | ⟨valT, _ | ⟨x, t⟩⟩⟩
  · simp [parseCommand, hsp]
  · simp [parseCommand, hsp]
  · rcases hv : jsParseInt10 valT with _ | v
    · simp [parseCommand, hsp, hv]
      exact ⟨dirT, valT, ⟨rfl, rfl⟩, Or.inl hv⟩
    · by_cases hf : dirT = "forward".data
      · simp [parseCommand, hsp, hv, hf]
      · by_cases hd : dirT = "down".data
        · simp [parseCommand, hsp, hv, hd]
        · by_cases hu : dirT = "up".data
          · simp [parseCommand, hsp, hv, hu]
          · simp [parseCommand, hsp, hv, hf, hd, hu]
            exact ⟨dirT, valT, ⟨rfl, rfl⟩, Or.inr ⟨hf, hd, hu⟩⟩
  · simp [parseCommand, hsp]

structure Part3State where
  horizontal : Int
  depth : Int
  aim : Int
  visitedPositions : List Position
  scannedData : List ScanData
  mapPoints : List (String × Char)
deriving DecidableEq

def checkScanner (data : String → Option (List Char))
    (p : PositionWithAim) : Option (List Char) :=
  data (fmtKey p.horizontal p.depth)

def collectScanData (data : String → Option (List Char))
    (st : Part3State) (p : PositionWithAim) : Part3State :=
  match checkScanner data p with
  | some r =>
      { st with scannedData :=
          st.scannedData ++ [⟨⟨p.horizontal, p.depth⟩, r⟩] }
  | none => st

def mkPart3 (data : String → Option (List Char)) : Part3State :=
  collectScanData data ⟨0, 0, 0, [⟨0, 0⟩], [], []⟩ ⟨0, 0, 0⟩

def part3Exec (data : String → Option (List Char))
    (st : Part3State) (s : String) : Except String Part3State := do
  let c ← parseCommand s
  let p2 := part2Step ⟨st.horizontal, st.depth, st.aim⟩ c
  let st1 : Part3State :=
    { st with horizontal := p2.horizontal, depth := p2.depth, aim := p2.aim,
              visitedPositions :=
                st.visitedPositions ++ [⟨p2.horizontal, p2.depth⟩] }
  let st2 := collectScanData data st1 p2
  match st2.scannedData.getLast? with
  | none => .error "TypeError: Cannot destructure property of undefined"
  | some sd => do
      let mp ← translateScanToMap st2.mapPoints sd
      .ok { st2 with mapPoints := mp }

def noScanData : String → Option (List Char) := fun _ => none

def originOnlyData : String → Option (List Char) := fun k =>
  if k = fmtKey 0 0 then some ['a','b','c','d','e','f','g','h','i'] else none

def twoPointData : String → Option (List Char) := fun k =>
  if k = fmtKey 0 0 then some ['a','b','c','d','e','f','g','h','i']
  else if k = fmtKey 5 0 then some ['j','k','l','m','n','o','p','q','r']
  else none

/-- C2: evaluation of the code at the failing input.  With a Scan Source
that has no data anywhere, constructing the session is indeed a no-op
(empty scan list and map, only the origin logged), but executing the
first command throws: `executeCommand` unconditionally dereferences
`this.scannedData[this.scannedData.length - 1]`, which is `undefined`
when nothing has ever been scanned, and `translateScanToMap` then
destructures `undefined` — refuting "never raises an error". -/
theorem c2_nodata_command_throws :
    part3Exec noScanData (mkPart3 noScanData) "forward 5" =
      .error "TypeError: Cannot destructure property of undefined" ∧
    (mkPart3 noScanData).scannedData = [] ∧
    (mkPart3 noScanData).mapPoints = [] ∧
    (mkPart3 noScanData).visitedPositions = [⟨0, 0⟩] :=
  ⟨rfl, rfl, rfl, rfl⟩

/-- C3: evaluation of the code at the failing inputs.  With a Scan
Source that has data at the origin, the constructor collects the origin
sample into `scannedData` but never calls `translateScanToMap`, so after
a zero-command run the sparse map is empty; and after the run
`["forward 5"]` against a source with data at both `(0,0)` and `(5,0)`,
the map contains the `(5,0)` block but no cell of the origin block
(neither `(0,0)` nor `(-1,-1)`), although the origin is in the visited
log and had a sample — refuting the claim that every logged position
with a sample has its full 3×3 block in the map. -/
theorem c3_origin_sample_not_translated :
    (mkPart3 originOnlyData).scannedData =
      [⟨⟨0, 0⟩, ['a','b','c','d','e','f','g','h','i']⟩] ∧
    (mkPart3 originOnlyData).mapPoints = [] ∧
    ((part3Exec twoPointData (mkPart3 twoPointData) "forward 5").toOption.map
      (fun st => (st.visitedPositions,
                  mapGet st.mapPoints (fmtKey 0 0),
                  mapGet st.mapPoints (fmtKey (-1) (-1)),
                  mapGet st.mapPoints (fmtKey 5 0)))) =
      some ([⟨0, 0⟩, ⟨5, 0⟩], none, none, some 'n') :=
  ⟨rfl, rfl, rfl⟩

inductive SubState
  | SURFACED
  | DIVING
  | CRUISING
  | ASCENDING
  | EMERGENCY
deriving DecidableEq

structure SMContext where
  currentState : SubState
  position : PositionWithAim
deriving DecidableEq

def surfacedCanExecute (c : Command) : Bool :=
  c.direction == .forward || c.direction == .down

def surfacedGetNextState (c : Command) : SubState :=
  if c.direction = .down then .DIVING else .SURFACED

def surfacedExecute (c : Command) (ctx : SMContext) : Except String SMContext :=
  if surfacedCanExecute c then
    .ok { currentState := surfacedGetNextState c,
          position :=
            if c.direction = .forward then
              { ctx.position with
                  horizontal := ctx.position.horizontal + c.value }
            else
              { ctx.position with aim := ctx.position.aim + c.value } }
  else .error "Cannot go up when surfaced"

def cruisingGetNextState (c : Command) : SubState :=
  if c.direction = .up ∧ c.value > 5 then .ASCENDING
  else if c.direction = .down ∧ c.value > 5 then .DIVING
  else .CRUISING

def cruisingExecute (c : Command) (ctx : SMContext) : SMContext :=
  { currentState := cruisingGetNextState c,
    position := part2Step ctx.position c }

def dirText : Direction → String
  | .forward => "forward"
  | .down => "down"
  | .up => "up"

def stateStep (ctx : SMContext) (c : Command) : Except String SMContext :=
  match ctx.currentState with
  | .SURFACED =>
      if surfacedCanExecute c then surfacedExecute c ctx
      else .error ("Cannot execute " ++ dirText c.direction ++
        " in state SURFACED")
  | .CRUISING => .ok (cruisingExecute c ctx)
  | .DIVING => .ok (cruisingExecute c ctx)
  | .ASCENDING => .ok (cruisingExecute c ctx)
  | .EMERGENCY => .error "Unknown state: EMERGENCY"

def smExecuteCommand (ctx : SMContext) (s : String) :
    Except String SMContext :=
  (parseCommand s).bind (stateStep ctx)

def smInit : SMContext := ⟨.SURFACED, ⟨0, 0, 0⟩⟩

/-- C10 counterexample: from the initial SURFACED state, `down 1`
(magnitude 1, not exceeding 5) transitions to DIVING rather than
staying in or moving to CRUISING; and from CRUISING, `up -10`
(magnitude 10, exceeding 5) stays in CRUISING because the code compares
the signed value, not the magnitude, against 5 — both refuting the
claimed "transition to DIVING or ASCENDING occurs exactly when the
command's magnitude exceeds 5, otherwise CRUISING". -/
theorem c10_counterexample_surfaced_down_small :
    smExecuteCommand smInit "down 1" = .ok ⟨.DIVING, ⟨0, 0, 1⟩⟩ ∧
    (1 : Int).natAbs ≤ 5 ∧
    stateStep ⟨.CRUISING, ⟨0, 0, 0⟩⟩ ⟨.up, -10⟩ =
      .ok ⟨.CRUISING, ⟨0, 0, 10⟩⟩ ∧
    (-10 : Int).natAbs > 5 :=
  ⟨rfl, by decide, rfl, by decide⟩

/-- C10 (amended): from SURFACED, only forward and down are legal and up
fails with an explicit error; forward keeps the state SURFACED while
down always transitions to DIVING regardless of the value; from each
cruising-family state (CRUISING, DIVING, ASCENDING) all three commands
are legal, a down (resp. up) command transitions to DIVING
(resp. ASCENDING) exactly when its signed value is greater than 5, and
every other command leaves the machine in CRUISING. -/
theorem c10_amended_transition_rule (h d a v : Int) :
    stateStep ⟨.SURFACED, ⟨h, d, a⟩⟩ ⟨.up, v⟩ =
      .error "Cannot execute up in state SURFACED" ∧
    stateStep ⟨.SURFACED, ⟨h, d, a⟩⟩ ⟨.forward, v⟩ =
      .ok ⟨.SURFACED, ⟨h + v, d, a⟩⟩ ∧
    stateStep ⟨.SURFACED, ⟨h, d, a⟩⟩ ⟨.down, v⟩ =
      .ok ⟨.DIVING, ⟨h, d, a + v⟩⟩ ∧
    stateStep ⟨.CRUISING, ⟨h, d, a⟩⟩ ⟨.forward, v⟩ =
      .ok ⟨.CRUISING, ⟨h + v, d + a * v, a⟩⟩ ∧
    stateStep ⟨.CRUISING, ⟨h, d, a⟩⟩ ⟨.down, v⟩ =
      .ok ⟨if v > 5 then .DIVING else .CRUISING, ⟨h, d, a + v⟩⟩ ∧
    stateStep ⟨.CRUISING, ⟨h, d, a⟩⟩ ⟨.up, v⟩ =
      .ok ⟨if v > 5 then .ASCENDING else .CRUISING, ⟨h, d, a - v⟩⟩ ∧
    stateStep ⟨.DIVING, ⟨h, d, a⟩⟩ ⟨.forward, v⟩ =
      .ok ⟨.CRUISING, ⟨h + v, d + a * v, a⟩⟩ ∧
    stateStep ⟨.DIVING, ⟨h, d, a⟩⟩ ⟨.down, v⟩ =
      .ok ⟨if v > 5 then .DIVING else .CRUISING, ⟨h, d, a + v⟩⟩ ∧
    stateStep ⟨.DIVING, ⟨h, d, a⟩⟩ ⟨.up, v⟩ =
      .ok ⟨if v > 5 then .ASCENDING else .CRUISING, ⟨h, d, a - v⟩⟩ ∧
    stateStep ⟨.ASCENDING, ⟨h, d, a⟩⟩ ⟨.forward, v⟩ =
      .ok ⟨.CRUISING, ⟨h + v, d + a * v, a⟩⟩ ∧
    stateStep ⟨.ASCENDING, ⟨h, d, a⟩⟩ ⟨.down, v⟩ =
      .ok ⟨if v > 5 then .DIVING else .CRUISING, ⟨h, d, a + v⟩⟩ ∧
    stateStep ⟨.ASCENDING, ⟨h, d, a⟩⟩ ⟨.up, v⟩ =
      .ok ⟨if v > 5 then .ASCENDING else .CRUISING, ⟨h, d, a - v⟩⟩ := by
  refine ⟨rfl, rfl, rfl, ?_, ?_, ?_, ?_, ?_, ?_, ?_, ?_, ?_⟩ <;>
    (by_cases hv : v > 5 <;>
      simp [stateStep, cruisingExecute, cruisingGetNextState, part2Step, hv])

/-- `getMapDimensions` return record `{width, height, minX, maxX, minY,
maxY}`. -/
structure MapDims where
  width : Int
  height : Int
  minX : Int
  maxX : Int
  minY : Int
  maxY : Int
deriving DecidableEq

/-- Key parsing as used inside the bounding-box scan: a key that fails
the regex contributes the default coordinate `(0, 0)`. -/
def parseKeyD (k : String) : Int × Int := (parseKey k).getD (0, 0)

/-- `Math.min(...)` over a spread non-empty list (the empty case is
unreachable in the source because of the emptiness guard). -/
def listMinI : List Int → Int
  | [] => 0
  | x :: t => t.foldl min x

/-- `Math.max(...)` over a spread non-empty list. -/
def listMaxI : List Int → Int
  | [] => 0
  | x :: t => t.foldl max x

/-- `SubmarinePart3.getMapDimensions`: all-zero record on an empty map,
otherwise min/max over the regex-parsed key coordinates with
`width = maxX - minX + 1` and `height = maxY - minY + 1`. -/
def getMapDimensions (m : List (String × Char)) : MapDims :=
  if m = [] then ⟨0, 0, 0, 0, 0, 0⟩
  else
    let coords := m.map (fun kc => parseKeyD kc.1)
    let minX := listMinI (coords.map Prod.fst)
    let maxX := listMaxI (coords.map Prod.fst)
    let minY := listMinI (coords.map Prod.snd)
    let maxY := listMaxI (coords.map Prod.snd)
    ⟨maxX - minX + 1, maxY - minY + 1, minX, maxX, minY, maxY⟩

/-- The assignment `map[mapY][mapX] = char` on the dense grid.  Out of
range writes leave the grid unchanged; they are unreachable in
`buildMap` because the bounding box is computed from the same keys. -/
def setCell (g : List (List Char)) (i j : Int) (c : Char) :
    List (List Char) :=
  if i < 0 ∨ j < 0 then g
  else
    match g[i.toNat]? with
    | none => g
    | some row => g.set i.toNat (row.set j.toNat c)

/-- Reading one cell of the dense grid. -/
def getCell (g : List (List Char)) (i j : Int) : Option Char :=
  if i < 0 ∨ j < 0 then none
  else (g[i.toNat]?).bind (fun row => row[j.toNat]?)

/-- One iteration of the `mapPoints.forEach` fill loop of `buildMap`:
parse the key, convert to grid-relative coordinates, write the
character; keys failing the regex are skipped. -/
def fillCell (d : MapDims) (g : List (List Char)) (kc : String × Char) :
    List (List Char) :=
  match parseKey kc.1 with
  | some (x, y) => setCell g (y - d.minY) (x - d.minX) kc.2
  | none => g

/-- `SubmarinePart3.buildMap`: empty grid for an empty map, otherwise a
`height x width` grid of blanks overwritten with every map point at row
`y - minY`, column `x - minX`. -/
def buildMap (m : List (String × Char)) : List (List Char) :=
  if m = [] then []
  else
    let d := getMapDimensions m
    let g0 := List.replicate d.height.toNat
      (List.replicate d.width.toNat ' ')
    m.foldl (fillCell d) g0

/-- `SubmarinePart3.printMap`, modelled as the list of lines written to
the console: the "No map data available" notice for an empty grid,
otherwise a bordered block with one line per grid row. -/
def printMap (m : List (String × Char)) : List String :=
  let g := buildMap m
  if g = [] then ["No map data available"]
  else ("\n=== SCANNED MAP ===" :: g.map (fun row => String.mk row)) ++
    ["===================\n"]

/-- The spec's bounding-box example: keys exactly
`{(0,0), (1,-1), (-2,3)}`. -/
def c4ExampleMap : List (String × Char) :=
  [(fmtKey 0 0, 'x'), (fmtKey 1 (-1), 'y'), (fmtKey (-2) 3, 'z')]


theorem foldl_min_le_init (l : List Int) (a : Int) : l.foldl min a ≤ a := by
  induction l generalizing a with
  | nil => exact le_refl a
  | cons y t ih => exact le_trans (ih (min a y)) (min_le_left a y)

theorem foldl_min_le_mem (l : List Int) (a x : Int) (hx : x ∈ l) :
    l.foldl min a ≤ x := by
  induction l generalizing a with
  | nil => cases hx
  | cons y t ih =>
    rcases List.mem_cons.mp hx with rfl | hx'
    · exact le_trans (foldl_min_le_init t (min a x)) (min_le_right a x)
    · exact ih (min a y) hx'

theorem listMinI_le (l : List Int) (x : Int) (hx : x ∈ l) :
    listMinI l ≤ x := by
  cases l with
  | nil => cases hx
  | cons c cs =>
    rcases List.mem_cons.mp hx with rfl | hx'
    · exact foldl_min_le_init cs x
    · exact foldl_min_le_mem cs c x hx'

theorem foldl_min_mem (l : List Int) (a : Int) :
    l.foldl min a = a ∨ l.foldl min a ∈ l := by
  induction l generalizing a with
  | nil => exact Or.inl rfl
  | cons y t ih =>
    rcases ih (min a y) with h | h
    · rcases min_choice a y with hm | hm
      · exact Or.inl (by rw [List.foldl_cons, h, hm])
      · exact Or.inr (by rw [List.foldl_cons, h, hm]; exact List.mem_cons_self y t)
    · exact Or.inr (List.mem_cons_of_mem y h)

theorem listMinI_mem (l : List Int) (hl : l ≠ []) : listMinI l ∈ l := by
  cases l with
  | nil => exact absurd rfl hl
  | cons c cs =>
    rcases foldl_min_mem cs c with h | h
    · rw [listMinI, h]; exact List.mem_cons_self c cs
    · rw [listMinI]; exact List.mem_cons_of_mem c h

theorem foldl_max_init_le (l : List Int) (a : Int) : a ≤ l.foldl max a := by
  induction l generalizing a with
  | nil => exact le_refl a
  | cons y t ih => exact le_trans (le_max_left a y) (ih (max a y))

theorem foldl_max_mem_le (l : List Int) (a x : Int) (hx : x ∈ l) :
    x ≤ l.foldl max a := by
  induction l generalizing a with
  | nil => cases hx
  | cons y t ih =>
    rcases List.mem_cons.mp hx with rfl | hx'
    · exact le_trans (le_max_right a x) (foldl_max_init_le t (max a x))
    · exact ih (max a y) hx'

theorem le_listMaxI (l : List Int) (x : Int) (hx : x ∈ l) :
    x ≤ listMaxI l := by
  cases l with
  | nil => cases hx
  | cons c cs =>
    rcases List.mem_cons.mp hx with rfl | hx'
    · exact foldl_max_init_le cs x
    · exact foldl_max_mem_le cs c x hx'

theorem foldl_max_mem (l : List Int) (a : Int) :
    l.foldl max a = a ∨ l.foldl max a ∈ l := by
  induction l generalizing a with
  | nil => exact Or.inl rfl
  | cons y t ih =>
    rcases ih (max a y) with h | h
    · rcases max_choice a y with hm | hm
      · exact Or.inl (by rw [List.foldl_cons, h, hm])
      · exact Or.inr (by rw [List.foldl_cons, h, hm]; exact List.mem_cons_self y t)
    · exact Or.inr (List.mem_cons_of_mem y h)

theorem listMaxI_mem (l : List Int) (hl : l ≠ []) : listMaxI l ∈ l := by
  cases l with
  | nil => exact absurd rfl hl
  | cons c cs =>
    rcases foldl_max_mem cs c with h | h
    · rw [listMaxI, h]; exact List.mem_cons_self c cs
    · rw [listMaxI]; exact List.mem_cons_of_mem c h

theorem getMapDimensions_cons (e : String × Char) (m : List (String × Char)) :
    getMapDimensions (e :: m) =
      ⟨listMaxI (((e :: m).map (fun kc => parseKeyD kc.1)).map Prod.fst) -
         listMinI (((e :: m).map (fun kc => parseKeyD kc.1)).map Prod.fst) + 1,
       listMaxI (((e :: m).map (fun kc => parseKeyD kc.1)).map Prod.snd) -
         listMinI (((e :: m).map (fun kc => parseKeyD kc.1)).map Prod.snd) + 1,
       listMinI (((e :: m).map (fun kc => parseKeyD kc.1)).map Prod.fst),
       listMaxI (((e :: m).map (fun kc => parseKeyD kc.1)).map Prod.fst),
       listMinI (((e :: m).map (fun kc => parseKeyD kc.1)).map Prod.snd),
       listMaxI (((e :: m).map (fun kc => parseKeyD kc.1)).map Prod.snd)⟩ := by
  simp [getMapDimensions]

/-- C4: for every non-empty sparse map (written as `e :: m`), the
bounding box returned by `getMapDimensions` consists of the minimum and
maximum of the parsed key x-components and y-components (each bound
both bounds every key and is attained by some key), with
`width = maxX - minX + 1` and `height = maxY - minY + 1`; in
particular, on the map with keys exactly `(0,0)`, `(1,-1)`, `(-2,3)` it
returns `minX = -2, maxX = 1, minY = -1, maxY = 3, width = 4,
height = 5`. -/
theorem c4_bounding_box_minmax (e : String × Char) (m : List (String × Char)) :
    (∀ kc ∈ e :: m,
      (getMapDimensions (e :: m)).minX ≤ (parseKeyD kc.1).1 ∧
      (parseKeyD kc.1).1 ≤ (getMapDimensions (e :: m)).maxX ∧
      (getMapDimensions (e :: m)).minY ≤ (parseKeyD kc.1).2 ∧
      (parseKeyD kc.1).2 ≤ (getMapDimensions (e :: m)).maxY) ∧
    (∃ kc ∈ e :: m, (parseKeyD kc.1).1 = (getMapDimensions (e :: m)).minX) ∧
    (∃ kc ∈ e :: m, (parseKeyD kc.1).1 = (getMapDimensions (e :: m)).maxX) ∧
    (∃ kc ∈ e :: m, (parseKeyD kc.1).2 = (getMapDimensions (e :: m)).minY) ∧
    (∃ kc ∈ e :: m, (parseKeyD kc.1).2 = (getMapDimensions (e :: m)).maxY) ∧
    (getMapDimensions (e :: m)).width =
      (getMapDimensions (e :: m)).maxX - (getMapDimensions (e :: m)).minX + 1 ∧
    (getMapDimensions (e :: m)).height =
      (getMapDimensions (e :: m)).maxY - (getMapDimensions (e :: m)).minY + 1 ∧
    getMapDimensions c4ExampleMap = ⟨4, 5, -2, 1, -1, 3⟩ := by
  rw [getMapDimensions_cons]
  refine ⟨?_, ?_, ?_, ?_, ?_, rfl, rfl, by decide⟩
  · intro kc hkc
    have hx : (parseKeyD kc.1).1 ∈
        ((e :: m).map (fun kc => parseKeyD kc.1)).map Prod.fst := by
      exact List.mem_map_of_mem _ (List.mem_map_of_mem _ hkc)
    have hy : (parseKeyD kc.1).2 ∈
        ((e :: m).map (fun kc => parseKeyD kc.1)).map Prod.snd := by
      exact List.mem_map_of_mem _ (List.mem_map_of_mem _ hkc)
    exact ⟨listMinI_le _ _ hx, le_listMaxI _ _ hx,
      listMinI_le _ _ hy, le_listMaxI _ _ hy⟩
  · have hmem := listMinI_mem
      (((e :: m).map (fun kc => parseKeyD kc.1)).map Prod.fst) (by simp)
    rcases List.mem_map.mp hmem with ⟨p, hp, hval⟩
    rcases List.mem_map.mp hp with ⟨kc, hkc, hpk⟩
    exact ⟨kc, hkc, by rw [hpk, hval]⟩
  · have hmem := listMaxI_mem
      (((e :: m).map (fun kc => parseKeyD kc.1)).map Prod.fst) (by simp)
    rcases List.mem_map.mp hmem with ⟨p, hp, hval⟩
    rcases List.mem_map.mp hp with ⟨kc, hkc, hpk⟩
    exact ⟨kc, hkc, by rw [hpk, hval]⟩
  · have hmem := listMinI_mem
      (((e :: m).map (fun kc => parseKeyD kc.1)).map Prod.snd) (by simp)
    rcases List.mem_map.mp hmem with ⟨p, hp, hval⟩
    rcases List.mem_map.mp hp with ⟨kc, hkc, hpk⟩
    exact ⟨kc, hkc, by rw [hpk, hval]⟩
  · have hmem := listMaxI_mem
      (((e :: m).map (fun kc => parseKeyD kc.1)).map Prod.snd) (by simp)
    rcases List.mem_map.mp hmem with ⟨p, hp, hval⟩
    rcases List.mem_map.mp hp with ⟨kc, hkc, hpk⟩
    exact ⟨kc, hkc, by rw [hpk, hval]⟩

/-- C6: on the empty sparse map every aggregator read succeeds with a
defined empty value: `getMapDimensions` returns the all-zero record,
`buildMap` returns the empty grid, and `printMap` (total by
construction, so it cannot throw) emits exactly the
"No map data available" notice. -/
theorem c6_empty_map_safety :
    getMapDimensions [] = ⟨0, 0, 0, 0, 0, 0⟩ ∧ buildMap [] = [] ∧
    printMap [] = ["No map data available"] :=
  ⟨rfl, rfl, rfl⟩

/-- Invariant of the aggregator's `Map<string, string>`: keys are unique
(JS `Map` semantics) and every key is the canonical `fmtKey` image of
its coordinate (the aggregator only ever writes keys it formats
itself). -/
def MapWF (m : List (String × Char)) : Prop :=
  (m.map Prod.fst).Nodup ∧
  ∀ kc ∈ m, (parseKey kc.1).map (fun p => fmtKey p.1 p.2) = some kc.1

instance instDecidableMapWF (m : List (String × Char)) :
    Decidable (MapWF m) := by
  unfold MapWF; infer_instance

theorem MapWF.parse_canonical {m : List (String × Char)}
    {kc : String × Char} (hwf : MapWF m) (hkc : kc ∈ m) :
    ∃ x y, parseKey kc.1 = some (x, y) ∧ fmtKey x y = kc.1 := by
  have h := hwf.2 kc hkc
  cases hp : parseKey kc.1 with
  | none => rw [hp] at h; exact Option.noConfusion h
  | some p =>
    obtain ⟨x, y⟩ := p
    rw [hp] at h
    exact ⟨x, y, rfl, Option.some.inj h⟩

/-- Rectangularity invariant of a dense grid. -/
def GridWF (H W : Nat) (g : List (List Char)) : Prop :=
  g.length = H ∧ ∀ row ∈ g, row.length = W

theorem gridWF_replicate (H W : Nat) :
    GridWF H W (List.replicate H (List.replicate W ' ')) := by
  refine ⟨List.length_replicate H _, ?_⟩
  intro row hrow
  rw [List.eq_of_mem_replicate hrow]
  exact List.length_replicate W _

theorem setCell_gridWF {H W : Nat} {g : List (List Char)}
    (hg : GridWF H W g) (i j : Int) (c : Char) :
    GridWF H W (setCell g i j c) := by
  by_cases hneg : i < 0 ∨ j < 0
  · rw [setCell, if_pos hneg]; exact hg
  · rw [setCell, if_neg hneg]
    cases hrow : g[i.toNat]? with
    | none => exact hg
    | some row =>
      have hrowmem : row ∈ g := List.getElem?_mem hrow
      refine ⟨by rw [List.length_set]; exact hg.1, ?_⟩
      intro r hr
      rcases List.mem_or_eq_of_mem_set hr with h | h
      · exact hg.2 r h
      · rw [h, List.length_set]; exact hg.2 row hrowmem

theorem getCell_setCell_same {H W : Nat} {g : List (List Char)}
    (hg : GridWF H W g) {i j : Int} (c : Char)
    (h0i : 0 ≤ i) (hiH : i.toNat < H) (h0j : 0 ≤ j) (hjW : j.toNat < W) :
    getCell (setCell g i j c) i j = some c := by
  have hneg : ¬(i < 0 ∨ j < 0) := by omega
  have hlen : i.toNat < g.length := by rw [hg.1]; exact hiH
  have hrowlen : g[i.toNat].length = W :=
    hg.2 _ (List.getElem_mem hlen)
  rw [setCell, if_neg hneg, List.getElem?_eq_getElem hlen]
  rw [getCell, if_neg hneg]
  rw [List.getElem?_set_self hlen]
  simp only [Option.some_bind]
  rw [List.getElem?_set_self (by rw [hrowlen]; exact hjW)]

theorem getCell_setCell_other (g : List (List Char)) {i j i' j' : Int}
    (c : Char) (hne : ¬(i = i' ∧ j = j')) :
    getCell (setCell g i j c) i' j' = getCell g i' j' := by
  by_cases hneg : i < 0 ∨ j < 0
  · rw [setCell, if_pos hneg]
  · rw [setCell, if_neg hneg]
    by_cases hneg' : i' < 0 ∨ j' < 0
    · cases hrow : g[i.toNat]? with
      | none => rfl
      | some row => rw [getCell, if_pos hneg', getCell, if_pos hneg']
    · cases hrow : g[i.toNat]? with
      | none => rfl
      | some row =>
        have hlen : i.toNat < g.length := by
          by_contra hcon
          rw [List.getElem?_eq_none (by omega)] at hrow
          cases hrow
        by_cases hii : i = i'
        · subst hii
          have hjj : j.toNat ≠ j'.toNat := by
            have : ¬ j = j' := fun h => hne ⟨rfl, h⟩
            omega
          rw [getCell, if_neg hneg', getCell, if_neg hneg']
          rw [List.getElem?_set_self hlen, hrow]
          simp only [Option.some_bind]
          rw [List.getElem?_set_ne hjj]
        · have hiin : i.toNat ≠ i'.toNat := by omega
          rw [getCell, if_neg hneg', getCell, if_neg hneg']
          rw [List.getElem?_set_ne hiin]

theorem fill_gridWF {H W : Nat} (d : MapDims) (l : List (String × Char))
    (g : List (List Char)) (hg : GridWF H W g) :
    GridWF H W (l.foldl (fillCell d) g) := by
  induction l generalizing g with
  | nil => exact hg
  | cons kc t ih =>
    rw [List.foldl_cons]
    apply ih
    rw [fillCell]
    cases parseKey kc.1 with
    | none => exact hg
    | some p => exact setCell_gridWF hg _ _ _

theorem fill_untouched (d : MapDims) (l : List (String × Char))
    (g : List (List Char)) {i j : Int}
    (hl : ∀ kc ∈ l, ∀ x y, parseKey kc.1 = some (x, y) →
      ¬(y - d.minY = i ∧ x - d.minX = j)) :
    getCell (l.foldl (fillCell d) g) i j = getCell g i j := by
  induction l generalizing g with
  | nil => rfl
  | cons kc t ih =>
    rw [List.foldl_cons,
      ih _ (fun kc' h => hl kc' (List.mem_cons_of_mem _ h))]
    rw [fillCell]
    cases hp : parseKey kc.1 with
    | none => rfl
    | some p =>
      obtain ⟨x, y⟩ := p
      exact getCell_setCell_other g _
        (hl kc (List.mem_cons_self _ _) x y hp)

theorem getCell_blank {H W : Nat} {i j : Int}
    (h0i : 0 ≤ i) (hiH : i.toNat < H) (h0j : 0 ≤ j) (hjW : j.toNat < W) :
    getCell (List.replicate H (List.replicate W ' ')) i j = some ' ' := by
  have hneg : ¬(i < 0 ∨ j < 0) := by omega
  rw [getCell, if_neg hneg, List.getElem?_replicate_of_lt hiH]
  simp only [Option.some_bind]
  rw [List.getElem?_replicate_of_lt hjW]

theorem getMapDimensions_le_bounds (m : List (String × Char))
    (kc : String × Char) (hkc : kc ∈ m) :
    (getMapDimensions m).minX ≤ (parseKeyD kc.1).1 ∧
    (parseKeyD kc.1).1 ≤ (getMapDimensions m).maxX ∧
    (getMapDimensions m).minY ≤ (parseKeyD kc.1).2 ∧
    (parseKeyD kc.1).2 ≤ (getMapDimensions m).maxY := by
  cases m with
  | nil => cases hkc
  | cons e t =>
    rw [getMapDimensions_cons]
    have hx : (parseKeyD kc.1).1 ∈
        ((e :: t).map (fun kc => parseKeyD kc.1)).map Prod.fst :=
      List.mem_map_of_mem _ (List.mem_map_of_mem _ hkc)
    have hy : (parseKeyD kc.1).2 ∈
        ((e :: t).map (fun kc => parseKeyD kc.1)).map Prod.snd :=
      List.mem_map_of_mem _ (List.mem_map_of_mem _ hkc)
    exact ⟨listMinI_le _ _ hx, le_listMaxI _ _ hx,
      listMinI_le _ _ hy, le_listMaxI _ _ hy⟩

theorem getMapDimensions_wh (m : List (String × Char)) (hm : m ≠ []) :
    (getMapDimensions m).width =
      (getMapDimensions m).maxX - (getMapDimensions m).minX + 1 ∧
    (getMapDimensions m).height =
      (getMapDimensions m).maxY - (getMapDimensions m).minY + 1 := by
  obtain ⟨e, t, rfl⟩ := List.exists_cons_of_ne_nil hm
  rw [getMapDimensions_cons]
  exact ⟨rfl, rfl⟩

/-- The rendering contract of `buildMap` on a non-empty map: row count is
`height`, every row has length `width`, every map entry appears at grid
cell `(y - minY, x - minX)`, and every cell not targeted by any entry
holds the blank placeholder. -/
def RenderSpec (m : List (String × Char)) : Prop :=
  (buildMap m).length = (getMapDimensions m).height.toNat ∧
  (∀ row ∈ buildMap m, row.length = (getMapDimensions m).width.toNat) ∧
  (∀ kc ∈ m, ∀ x y, parseKey kc.1 = some (x, y) →
    getCell (buildMap m) (y - (getMapDimensions m).minY)
      (x - (getMapDimensions m).minX) = some kc.2) ∧
  (∀ i j : Int, 0 ≤ i → i < (getMapDimensions m).height →
    0 ≤ j → j < (getMapDimensions m).width →
    (∀ kc ∈ m, ∀ x y, parseKey kc.1 = some (x, y) →
      ¬(y - (getMapDimensions m).minY = i ∧
        x - (getMapDimensions m).minX = j)) →
    getCell (buildMap m) i j = some ' ')

theorem fill_hit (d : MapDims) {H W : Nat} (l1 l2 : List (String × Char))
    (kc : String × Char) (g : List (List Char)) (hg : GridWF H W g)
    (x y : Int) (hp : parseKey kc.1 = some (x, y))
    (h0i : 0 ≤ y - d.minY) (hiH : (y - d.minY).toNat < H)
    (h0j : 0 ≤ x - d.minX) (hjW : (x - d.minX).toNat < W)
    (hno : ∀ kc' ∈ l2, ∀ x' y', parseKey kc'.1 = some (x', y') →
      ¬(y' - d.minY = y - d.minY ∧ x' - d.minX = x - d.minX)) :
    getCell ((l1 ++ kc :: l2).foldl (fillCell d) g)
      (y - d.minY) (x - d.minX) = some kc.2 := by
  rw [List.foldl_append, List.foldl_cons]
  have hfill : fillCell d (l1.foldl (fillCell d) g) kc =
      setCell (l1.foldl (fillCell d) g) (y - d.minY) (x - d.minX) kc.2 := by
    rw [fillCell, hp]
  rw [hfill, fill_untouched d l2 _ hno]
  exact getCell_setCell_same (fill_gridWF d l1 g hg) _ h0i hiH h0j hjW

/-- C5: for every non-empty well-formed sparse map, `buildMap` returns a
rectangular grid — row count equals the bounding box height and every
row's length equals its width (never jagged) — in which every sparse-map
entry `(x, y) -> c` appears at row `y - minY`, column `x - minX`, and
every cell not covered by an entry holds the blank placeholder. -/
theorem c5_render_spec (m : List (String × Char))
    (hwf : MapWF m) (hm : m ≠ []) : RenderSpec m := by
  have hwh := getMapDimensions_wh m hm
  have hbuild : buildMap m = m.foldl (fillCell (getMapDimensions m))
      (List.replicate (getMapDimensions m).height.toNat
        (List.replicate (getMapDimensions m).width.toNat ' ')) := by
    unfold buildMap
    rw [if_neg hm]
  have hg0 := gridWF_replicate (getMapDimensions m).height.toNat
    (getMapDimensions m).width.toNat
  have hgWF : GridWF (getMapDimensions m).height.toNat
      (getMapDimensions m).width.toNat (buildMap m) := by
    rw [hbuild]; exact fill_gridWF _ m _ hg0
  refine ⟨hgWF.1, hgWF.2, ?_, ?_⟩
  · intro kc hkc x y hp
    have hb : (getMapDimensions m).minX ≤ x ∧ x ≤ (getMapDimensions m).maxX ∧
        (getMapDimensions m).minY ≤ y ∧ y ≤ (getMapDimensions m).maxY := by
      have := getMapDimensions_le_bounds m kc hkc
      rw [parseKeyD, hp] at this
      simpa using this
    have h0i : (0 : Int) ≤ y - (getMapDimensions m).minY := by omega
    have hiH : (y - (getMapDimensions m).minY).toNat <
        (getMapDimensions m).height.toNat := by
      have h2 := hwh.2
      omega
    have h0j : (0 : Int) ≤ x - (getMapDimensions m).minX := by omega
    have hjW : (x - (getMapDimensions m).minX).toNat <
        (getMapDimensions m).width.toNat := by
      have h1 := hwh.1
      omega
    have hkcanon : fmtKey x y = kc.1 := by
      obtain ⟨x3, y3, hp3, hc3⟩ := hwf.parse_canonical hkc
      rw [hp] at hp3
      obtain ⟨h31, h32⟩ := Prod.mk.injEq .. ▸ Option.some.inj hp3
      rw [← h31, ← h32] at hc3
      exact hc3
    obtain ⟨l1, l2, hm2⟩ := List.append_of_mem hkc
    have hnotin : kc.1 ∉ l2.map Prod.fst := by
      have hnd := hwf.1
      rw [hm2, List.map_append, List.map_cons] at hnd
      have hsub : (kc.1 :: l2.map Prod.fst).Sublist
          (l1.map Prod.fst ++ kc.1 :: l2.map Prod.fst) :=
        List.sublist_append_right _ _
      exact (List.nodup_cons.mp (hnd.sublist hsub)).1
    have hno : ∀ kc' ∈ l2, ∀ x' y', parseKey kc'.1 = some (x', y') →
        ¬(y' - (getMapDimensions (l1 ++ kc :: l2)).minY =
            y - (getMapDimensions (l1 ++ kc :: l2)).minY ∧
          x' - (getMapDimensions (l1 ++ kc :: l2)).minX =
            x - (getMapDimensions (l1 ++ kc :: l2)).minX) := by
      intro kc' hkc' x' y' hp' hcell
      have hx' : x' = x := by
        have := hcell.2
        omega
      have hy' : y' = y := by
        have := hcell.1
        omega
      subst hx'
      subst hy'
      have hmem2 : kc' ∈ m := by
        rw [hm2]
        exact List.mem_append_right _ (List.mem_cons_of_mem _ hkc')
      obtain ⟨x2, y2, hp2, hc2⟩ := hwf.parse_canonical hmem2
      rw [hp'] at hp2
      obtain ⟨h21, h22⟩ := Prod.mk.injEq .. ▸ Option.some.inj hp2
      rw [← h21, ← h22] at hc2
      have hkeys : kc.1 = kc'.1 := by rw [← hkcanon, ← hc2]
      exact hnotin (hkeys ▸ List.mem_map_of_mem Prod.fst hkc')
    rw [hm2] at h0i hiH h0j hjW hbuild
    rw [hm2]
    rw [hbuild]
    exact fill_hit _ l1 l2 kc _ (gridWF_replicate _ _) x y hp
      h0i hiH h0j hjW hno
  · intro i j h0i hih h0j hjw hno
    rw [hbuild, fill_untouched _ m _ hno]
    have h2 := hwh.2
    have h1 := hwh.1
    exact getCell_blank h0i (by omega) h0j (by omega)

def c5WitnessMap : List (String × Char) :=
  [(fmtKey 0 0, 'a'), (fmtKey 1 (-1), 'b'), (fmtKey (-2) 3, 'c')]

theorem c5_render_witness :
    MapWF c5WitnessMap ∧ c5WitnessMap ≠ [] ∧ RenderSpec c5WitnessMap :=
  ⟨by decide, by decide, c5_render_spec c5WitnessMap (by decide) (by decide)⟩

/-- C9: the coordinate-key encoding round-trips exactly: for every pair
of integers, including negatives, formatting the key and re-parsing it
with the bounding-box regex recovers the pair, and formatting is
injective, so the bounding-box and render computations see exactly the
coordinates that were written. -/
theorem c9_key_roundtrip_injective (x y x' y' : Int) :
    parseKey (fmtKey x y) = some (x, y) ∧
    (fmtKey x y = fmtKey x' y' → x = x' ∧ y = y') :=
  ⟨parseKey_fmtKey x y, fun h => fmtKey_inj.mp h⟩

theorem c9_key_roundtrip_witness :
    parseKey (fmtKey (-3) 7) = some (-3, 7) ∧
    ((-3 : Int) = -3 ∧ (7 : Int) = 7) :=
  ⟨(c9_key_roundtrip_injective (-3) 7 (-3) 7).1,
   (c9_key_roundtrip_injective (-3) 7 (-3) 7).2 rfl⟩

end Kata
